import Mathlib

/-!
Verification of the Workspace & Worktree Orchestration Subsystem of the
`agentrix` server (Rust sources under `src/server/`): the repository-URL
parser and branch sanitizer (pure functions), the clone and worktree
orchestration state machines (`clone_session`, `create_worktree`), the
workspace-tree scanner (`workspaces_from_dir` and friends), and the
`sessions` handler.

The filesystem is modelled as a tree of nodes (`FsNode`); directories carry a
readability flag so that `read_dir` failures on existing directories can be
expressed.  The external `git` process is modelled as an oracle that, given
the filesystem at invocation time and the command's arguments, returns an
exit status and the filesystem it leaves behind.  Rust string primitives used
by the source (`str::trim`, `split`, `trim_end_matches`, `splitn`, `find`)
are given explicit executable models.
-/

/-! ## Rust string primitives -/

/-- Model of Rust `char::is_whitespace` (the Unicode `White_Space` property). -/
def rustIsWhitespace (c : Char) : Bool :=
  let n := c.toNat
  decide (n = 0x9) || decide (n = 0xA) || decide (n = 0xB) || decide (n = 0xC) ||
  decide (n = 0xD) || decide (n = 0x20) || decide (n = 0x85) || decide (n = 0xA0) ||
  decide (n = 0x1680) || (decide (0x2000 ≤ n) && decide (n ≤ 0x200A)) ||
  decide (n = 0x2028) || decide (n = 0x2029) || decide (n = 0x202F) ||
  decide (n = 0x205F) || decide (n = 0x3000)

/-- Model of Rust `str::trim` on a character list: drop leading and trailing
whitespace. -/
def rustTrimList (l : List Char) : List Char :=
  ((l.dropWhile rustIsWhitespace).reverse.dropWhile rustIsWhitespace).reverse

/-- Model of Rust `str::trim` on strings. -/
def rustTrim (s : String) : String :=
  String.mk (rustTrimList s.data)

/-- Model of Rust `str::trim_end_matches(c)` for a single-character pattern:
drop every trailing occurrence of `c`. -/
def rustTrimEndChar (c : Char) (l : List Char) : List Char :=
  (l.reverse.dropWhile (fun x => x = c)).reverse

/-- One fuel-indexed step loop for `trim_end_matches(pat)` with a string
pattern: repeatedly remove the suffix `pat` while it is present. -/
def stripSuffixFuel (pat : List Char) : Nat → List Char → List Char
  | 0, s => s
  | fuel + 1, s =>
    if pat ≠ [] ∧ pat.isSuffixOf s then
      stripSuffixFuel pat fuel (s.take (s.length - pat.length))
    else s

/-- Model of Rust `str::trim_end_matches(pat)` for a string pattern. -/
def rustTrimEndMatches (s pat : List Char) : List Char :=
  stripSuffixFuel pat s.length s

/-- Model of Rust `str::split(c)`: split on every occurrence of `c`, keeping
empty parts (splitting the empty string yields one empty part). -/
def splitChar (c : Char) : List Char → List (List Char)
  | [] => [[]]
  | x :: xs =>
    if x = c then [] :: splitChar c xs
    else
      match splitChar c xs with
      | [] => [[x]]
      | h :: t => (x :: h) :: t

/-- Model of Rust `str::splitn(2, c)` restricted to what the source uses:
the part after the first occurrence of `c`, if any. -/
def afterFirstChar (c : Char) : List Char → Option (List Char)
  | [] => none
  | x :: xs => if x = c then some xs else afterFirstChar c xs

/-- Model of Rust `str::find(pat)` for a string pattern: index of the first
occurrence of `pat` as a sublist. -/
def findSubstrIdx (pat : List Char) : List Char → Option Nat
  | [] => if pat = [] then some 0 else none
  | x :: xs =>
    if pat.isPrefixOf (x :: xs) then some 0
    else (findSubstrIdx pat xs).map (· + 1)

/-- Byte-lexicographic (equivalently, code-point lexicographic) order on
character lists, as Rust's `Ord` for `String`. -/
def lexLe : List Char → List Char → Bool
  | [], _ => true
  | _ :: _, [] => false
  | a :: as, b :: bs => if a = b then lexLe as bs else decide (a < b)

/-! ## Paths and the filesystem model -/

/-- A path is a list of components below the filesystem root. -/
abbrev FsPath := List String

/-- Render a path with `/` separators (used in error messages, as
`Path::display`). -/
def pathDisplay : FsPath → String
  | [] => ""
  | [s] => s
  | s :: rest => s ++ "/" ++ pathDisplay rest

/-- A filesystem node: a file, or a directory with named entries.  The
`readable` flag models whether `read_dir` on the directory succeeds. -/
inductive FsNode where
  | file : FsNode
  | dir (readable : Bool) (entries : List (String × FsNode)) : FsNode

/-- Is a node a directory? (`entry.file_type()?.is_dir()`). -/
def FsNode.isDir : FsNode → Bool
  | .dir _ _ => true
  | .file => false

/-- Resolve a path to a node, if it exists. -/
def FsNode.lookup : FsNode → FsPath → Option FsNode
  | n, [] => some n
  | .file, _ :: _ => none
  | .dir _ es, s :: rest =>
    match es.lookup s with
    | some child => child.lookup rest
    | none => none

/-- Model of `Path::exists` / successful `fs::metadata`. -/
def pathExists (fs : FsNode) (p : FsPath) : Bool :=
  (fs.lookup p).isSome

/-- Replace the first entry named `s` with `n`, or append `(s, n)` if there
is none. -/
def setEntry : List (String × FsNode) → String → FsNode → List (String × FsNode)
  | [], s, n => [(s, n)]
  | (k, v) :: rest, s, n =>
    if k = s then (k, n) :: rest else (k, v) :: setEntry rest s n

/-- Model of `fs::create_dir_all`: create every missing directory along the
path; fails (returns `none`) if a non-directory is in the way. -/
def FsNode.createDirAll : FsNode → FsPath → Option FsNode
  | .file, _ => none
  | .dir r es, [] => some (.dir r es)
  | .dir r es, s :: rest =>
    let child := (es.lookup s).getD (.dir true [])
    match child.createDirAll rest with
    | some child' => some (.dir r (setEntry es s child'))
    | none => none

/-- Remove the subtree at a path, if present (the effect of a successful
`fs::remove_dir_all`). -/
def FsNode.removePath : FsNode → FsPath → FsNode
  | n, [] => n
  | .file, _ :: _ => .file
  | .dir r es, s :: rest =>
    if rest.isEmpty then .dir r (es.filter (fun e => e.1 ≠ s))
    else
      match es.lookup s with
      | some child => .dir r (setEntry es s (child.removePath rest))
      | none => .dir r es

/-- Model of `fs::read_dir`: succeeds exactly on an existing readable
directory, yielding its entries. -/
def readDir (fs : FsNode) (p : FsPath) : Except String (List (String × FsNode)) :=
  match fs.lookup p with
  | some (.dir true es) => .ok es
  | _ => .error ("failed to read directory " ++ pathDisplay p)

/-- The names of the immediate subdirectories at a path (empty if the path
does not resolve to a directory). -/
def dirNamesAt (fs : FsNode) (p : FsPath) : List String :=
  match fs.lookup p with
  | some (.dir _ es) => (es.filter (fun e => e.2.isDir)).map (·.1)
  | _ => []

/-- A chain of readable directories realizing a path (used to build concrete
filesystems left behind by a successful external clone). -/
def mkDirTree : FsPath → FsNode
  | [] => .dir true []
  | s :: rest => .dir true [(s, mkDirTree rest)]

/-! ## RepositoryURLParser (`parse_repository_url`, `coordinates_from_path`) -/

/-- The `{workspace, repository}` coordinates extracted from a repository
URL. -/
structure RepoCoordinates where
  workspace : String
  repository : String
deriving DecidableEq, Repr

/-- The segment list used by `coordinates_from_path`: split the path on `/`
and keep the segments that are non-empty after trimming
(`!segment.trim().is_empty()`). -/
def urlSegments (path : String) : List String :=
  ((splitChar '/' path.data).map String.mk).filter (fun s => rustTrim s ≠ "")

/-- From `handlers.rs`: split a path on `/`, drop segments that are empty
after trimming, take the last segment minus trailing `.git` as the
repository and the second-to-last as the workspace. -/
def coordinates_from_path (path : String) : Except String RepoCoordinates :=
  let segments := urlSegments path
  if segments.length < 2 then
    .error "repository URL must include workspace and repository"
  else
    let repoSeg := segments.getLast?.getD ""
    let workspaceSeg := (segments[segments.length - 2]?).getD ""
    let repository := String.mk (rustTrimEndMatches repoSeg.data ".git".data)
    if repository = "" then .error "repository name cannot be empty"
    else .ok ⟨workspaceSeg, repository⟩

/-- From `handlers.rs`: the path portion of a repository URL — after the
first `:` for `git@` SSH URLs, after the first `/` following `://` for
scheme URLs, the whole (trimmed) input otherwise. -/
def extract_path (raw : String) : Except String String :=
  let trimmed := rustTrimEndChar '/' (rustTrim raw).data
  if trimmed = [] then .error "repository_url cannot be empty"
  else if ("git@".data).isPrefixOf trimmed then
    match afterFirstChar ':' trimmed with
    | some path => .ok (String.mk path)
    | none => .error "invalid SSH repository URL"
  else
    match findSubstrIdx "://".data trimmed with
    | some idx =>
      let afterProtocol := trimmed.drop (idx + 3)
      match afterFirstChar '/' afterProtocol with
      | some path => .ok (String.mk path)
      | none => .error "repository URL must include workspace and repository"
    | none => .ok (String.mk trimmed)

/-- From `handlers.rs`: parse a repository URL into coordinates. -/
def parse_repository_url (raw : String) : Except String RepoCoordinates :=
  (extract_path raw).bind coordinates_from_path

/-! ## BranchSanitizer (`sanitize_branch_name`) -/

/-- Model of Rust `char::is_ascii_alphanumeric`. -/
def rustIsAsciiAlphanumeric (c : Char) : Bool :=
  let n := c.toNat
  (decide (0x61 ≤ n) && decide (n ≤ 0x7A)) ||
  (decide (0x41 ≤ n) && decide (n ≤ 0x5A)) ||
  (decide (0x30 ≤ n) && decide (n ≤ 0x39))

/-- From `worktree.rs`: trim the branch name, then keep ASCII alphanumerics
and `-` and replace every other character with `_`. -/
def sanitize_branch_name (input : String) : String :=
  String.mk ((rustTrim input).data.map
    (fun c => if rustIsAsciiAlphanumeric c || c = '-' then c else '_'))

/-! ## CloneOrchestrator (`clone_session`) -/

/-- HTTP status hints used by the handlers' error responses. -/
inductive Status where
  | badRequest
  | notFound
  | conflict
  | internalServerError
deriving DecidableEq, Repr

/-- Result of one external `git clone` invocation: exit success and the
filesystem it leaves behind. -/
structure GitCloneResult where
  success : Bool
  fs : FsNode

/-- Oracle for the external `git clone <url> <target>` process, as a function
of the filesystem at spawn time and the target path.  A `success := false`
result covers both a non-zero exit and a spawn error. -/
abbrev GitCloneOracle := FsNode → FsPath → GitCloneResult

/-- The successful payload of the clone endpoint. -/
structure CloneSessionResponse where
  workspace : String
  repository : String
  path : FsPath
deriving DecidableEq, Repr

/-- Outcome of a `clone_session` call: the handler result, the filesystem
after the call, and whether the external clone process was spawned. -/
structure CloneOutcome where
  result : Except (Status × String) CloneSessionResponse
  fs : FsNode
  gitInvoked : Bool

/-- The conflict message produced when the clone target already exists. -/
def cloneConflictMsg (target : FsPath) : String :=
  "repository already exists at " ++ pathDisplay target

/-- From `handlers.rs`: the clone handler.  Parse the URL, fail on an
existing target, create the parent directory, run the external clone, and on
clone failure remove the target (best-effort: `removeOk` says whether the
removal itself succeeds) while still returning the clone error. -/
def clone_session (fs : FsNode) (workdir : FsPath) (repository_url : String)
    (git : GitCloneOracle) (removeOk : Bool) : CloneOutcome :=
  match parse_repository_url repository_url with
  | .error e => ⟨.error (.badRequest, e), fs, false⟩
  | .ok repo =>
    let parent := workdir ++ [repo.workspace]
    let target := parent ++ [repo.repository]
    if pathExists fs target then
      ⟨.error (.conflict, cloneConflictMsg target), fs, false⟩
    else
      match fs.createDirAll parent with
      | none =>
        ⟨.error (.internalServerError, "failed to prepare workspace directory"), fs, false⟩
      | some fs1 =>
        let g := git fs1 target
        if g.success then
          ⟨.ok ⟨repo.workspace, repo.repository, target⟩, g.fs, true⟩
        else
          let fs2 := if removeOk then g.fs.removePath target else g.fs
          ⟨.error (.internalServerError, "failed to clone repository"), fs2, true⟩

/-! ## WorktreeOrchestrator (`create_worktree`) -/

/-- Result of one external `git worktree add` invocation. -/
structure GitWorktreeResult where
  success : Bool
  fs : FsNode

/-- Oracle for the external `git worktree add -b <branch> <target>` process
run with the repository as working directory, as a function of the
filesystem at spawn time, the branch argument and the target path. -/
abbrev GitWorktreeOracle := FsNode → String → FsPath → GitWorktreeResult

/-- Outcome of a `create_worktree` call: result, filesystem after the call,
whether the external process was spawned, and the branch argument passed to
it (if it was). -/
structure WorktreeOutcome where
  result : Except String FsPath
  fs : FsNode
  gitInvoked : Bool
  gitBranchArg : Option String

/-- From `worktree.rs`: create a git worktree under
`worktrees_root/<workspace>/<repository>/<sanitized branch>`. -/
def create_worktree (fs : FsNode) (repo_path : FsPath)
    (workspace repository branch : String) (worktrees_root : FsPath)
    (git : GitWorktreeOracle) : WorktreeOutcome :=
  let branch' := rustTrim branch
  if branch' = "" then
    ⟨.error "branch name cannot be empty", fs, false, none⟩
  else if pathExists fs (repo_path ++ [".git"]) = false then
    ⟨.error (pathDisplay repo_path ++ " is not a git repository"), fs, false, none⟩
  else
    let sanitized := sanitize_branch_name branch'
    let parent := worktrees_root ++ [workspace, repository]
    let target := parent ++ [sanitized]
    match fs.createDirAll parent with
    | none =>
      ⟨.error ("failed to create worktree parent " ++ pathDisplay parent), fs, false, none⟩
    | some fs1 =>
      let g := git fs1 branch' target
      if g.success then ⟨.ok target, g.fs, true, some branch'⟩
      else ⟨.error "git worktree add failed", g.fs, true, some branch'⟩

/-! ## WorkspaceTreeScanner (`types.rs`) -/

/-- A plan entry (always empty in this subsystem). -/
structure SessionPlan where
  name : String
  session_id : String
  related_issue : Option Nat
deriving DecidableEq, Repr

/-- A terminal entry (always empty in this subsystem). -/
structure SessionTerminal where
  name : String
  kind : String
  dangerous : Option Bool
  session_id : String
deriving DecidableEq, Repr

/-- A worktree in the scanned tree. -/
structure SessionWorktree where
  name : String
  terminals : List SessionTerminal
deriving DecidableEq, Repr

/-- A repository in the scanned tree. -/
structure SessionRepository where
  name : String
  plans : List SessionPlan
  worktrees : List SessionWorktree
deriving DecidableEq, Repr

/-- A workspace in the scanned tree. -/
structure SessionWorkspace where
  name : String
  repositories : List SessionRepository
deriving DecidableEq, Repr

/-- Stable insertion into a list sorted by a key (model of Rust's stable
sort, specialised to insertion sort). -/
def insertByKey (key : α → List Char) (a : α) : List α → List α
  | [] => [a]
  | b :: l => if lexLe (key a) (key b) then a :: b :: l else b :: insertByKey key a l

/-- Sort a list by a key under the byte-lexicographic string order (model of
Rust `sort` / `sort_by` on names). -/
def sortByKey (key : α → List Char) : List α → List α
  | [] => []
  | a :: l => insertByKey key a (sortByKey key l)

/-- The sorted names of the immediate subdirectory entries in a directory
listing. -/
def sortedDirNames (es : List (String × FsNode)) : List String :=
  sortByKey (fun s => s.data) ((es.filter (fun e => e.2.isDir)).map (·.1))

/-- Error-propagating map over a list (the `for … { …? }` loops of
`types.rs`): the first error aborts the whole traversal. -/
def mapExcept (f : α → Except ε β) : List α → Except ε (List β)
  | [] => .ok []
  | a :: l => do
    let b ← f a
    let bs ← mapExcept f l
    .ok (b :: bs)

/-- From `types.rs`: the worktrees of one repository — empty if
`worktrees_root/<workspace>/<repository>` does not exist, otherwise the
sorted immediate subdirectories of that path. -/
def worktrees_for_repo (fs : FsNode) (worktrees_root : FsPath)
    (workspace repository : String) : Except String (List SessionWorktree) :=
  let repoRoot := worktrees_root ++ [workspace, repository]
  if pathExists fs repoRoot = false then .ok []
  else do
    let es ← readDir fs repoRoot
    .ok (sortByKey (fun w => w.name.data)
      (((es.filter (fun e => e.2.isDir)).map (·.1)).map (fun n => ⟨n, []⟩)))

/-- From `types.rs`: the repositories of one workspace directory, sorted by
name, each with its worktrees. -/
def repositories_from_dir (fs : FsNode) (org_name : String) (org_path : FsPath)
    (worktrees_root : FsPath) : Except String (List SessionRepository) :=
  do
    let es ← readDir fs org_path
    mapExcept
      (fun name => do
        let wts ← worktrees_for_repo fs worktrees_root org_name name
        .ok ⟨name, [], wts⟩)
      (sortedDirNames es)

/-- From `types.rs`: the full scan — empty if the working root does not
exist, otherwise the sorted workspaces with their repositories and
worktrees. -/
def workspaces_from_dir (fs : FsNode) (workdir : FsPath)
    (worktrees_root : FsPath) : Except String (List SessionWorkspace) :=
  if pathExists fs workdir = false then .ok []
  else do
    let es ← readDir fs workdir
    mapExcept
      (fun name => do
        let repos ← repositories_from_dir fs name (workdir ++ [name]) worktrees_root
        .ok ⟨name, repos⟩)
      (sortedDirNames es)

/-! ## The `sessions` handler (`handlers.rs`) -/

/-- The `{ data: … }` envelope of a successful response. -/
structure ApiResponse (α : Type) where
  data : α
deriving DecidableEq, Repr

/-- From `handlers.rs`: the list-sessions handler — any scan error is
swallowed (logged) and replaced by an empty workspace list; the response is
always a success envelope. -/
def sessions (fs : FsNode) (workdir : FsPath) (worktrees_root : FsPath) :
    ApiResponse (List SessionWorkspace) :=
  ⟨match workspaces_from_dir fs workdir worktrees_root with
    | .ok ws => ws
    | .error _ => []⟩

/-! ## Spec-as-claimed variant for the segment-dropping comparison -/

/-- The segment list as one claim reads it: split the path on `/` and drop
exactly the empty segments (whitespace-only segments are kept).  This is the
claimed behaviour; the source's `urlSegments` also drops whitespace-only
segments. -/
def urlSegmentsClaimed (path : String) : List String :=
  ((splitChar '/' path.data).map String.mk).filter (fun s => s ≠ "")

/-! ## Lemmas about the lexicographic order and sorting -/

theorem lexLe_refl (l : List Char) : lexLe l l = true := by
  induction l with
  | nil => rfl
  | cons a as ih => simp [lexLe, ih]

theorem lexLe_total (a b : List Char) : lexLe a b = true ∨ lexLe b a = true := by
  induction a generalizing b with
  | nil => exact Or.inl rfl
  | cons x xs ih =>
    cases b with
    | nil => exact Or.inr rfl
    | cons y ys =>
      by_cases hxy : x = y
      · subst hxy
        rcases ih ys with h | h
        · exact Or.inl (by simp [lexLe, h])
        · exact Or.inr (by simp [lexLe, h])
      · rcases lt_or_gt_of_ne hxy with h | h
        · exact Or.inl (by simp [lexLe, hxy, h])
        · exact Or.inr (by simp [lexLe, Ne.symm hxy, h])

theorem lexLe_trans (a b c : List Char) (hab : lexLe a b = true)
    (hbc : lexLe b c = true) : lexLe a c = true := by
  induction a generalizing b c with
  | nil => rfl
  | cons x xs ih =>
    cases b with
    | nil => simp [lexLe] at hab
    | cons y ys =>
      cases c with
      | nil => simp [lexLe] at hbc
      | cons z zs =>
        by_cases hxy : x = y
        · subst hxy
          simp only [lexLe, if_pos rfl] at hab
          by_cases hyz : x = z
          · subst hyz
            simp only [lexLe, if_pos rfl] at hbc ⊢
            exact ih ys zs hab hbc
          · simp only [lexLe, if_neg hyz] at hbc ⊢
            exact hbc
        · simp only [lexLe, if_neg hxy, decide_eq_true_eq] at hab
          by_cases hyz : y = z
          · subst hyz
            simp [lexLe, hxy, hab]
          · simp only [lexLe, if_neg hyz, decide_eq_true_eq] at hbc
            have hxz : x < z := lt_trans hab hbc
            simp [lexLe, ne_of_lt hxz, hxz]

theorem insertByKey_perm {α : Type} (key : α → List Char) (a : α) (l : List α) :
    (insertByKey key a l).Perm (a :: l) := by
  induction l with
  | nil => exact List.Perm.refl _
  | cons b t ih =>
    by_cases h : lexLe (key a) (key b) = true
    · simp [insertByKey, h]
    · simp only [insertByKey, if_neg h]
      exact List.Perm.trans (List.Perm.cons b ih) (List.Perm.swap a b t)

theorem sortByKey_perm {α : Type} (key : α → List Char) (l : List α) :
    (sortByKey key l).Perm l := by
  induction l with
  | nil => exact List.Perm.refl _
  | cons a t ih =>
    exact List.Perm.trans (insertByKey_perm key a (sortByKey key t))
      (List.Perm.cons a ih)

theorem insertByKey_pairwise {α : Type} (key : α → List Char) (a : α) (l : List α)
    (h : l.Pairwise (fun x y => lexLe (key x) (key y) = true)) :
    (insertByKey key a l).Pairwise (fun x y => lexLe (key x) (key y) = true) := by
  induction l with
  | nil => simp [insertByKey]
  | cons b t ih =>
    rcases List.pairwise_cons.mp h with ⟨hb, ht⟩
    by_cases hle : lexLe (key a) (key b) = true
    · simp only [insertByKey, if_pos hle]
      refine List.pairwise_cons.mpr ⟨?_, h⟩
      intro x hx
      rcases List.mem_cons.mp hx with hx | hx
      · simpa [hx] using hle
      · exact lexLe_trans _ _ _ hle (hb x hx)
    · simp only [insertByKey, if_neg hle]
      refine List.pairwise_cons.mpr ⟨?_, ih ht⟩
      intro x hx
      have hx' : x = a ∨ x ∈ t :=
        List.mem_cons.mp ((insertByKey_perm key a t).mem_iff.mp hx)
      rcases hx' with hx' | hx'
      · rw [hx']
        rcases lexLe_total (key a) (key b) with h' | h'
        · exact absurd h' hle
        · exact h'
      · exact hb x hx'

theorem sortByKey_pairwise {α : Type} (key : α → List Char) (l : List α) :
    (sortByKey key l).Pairwise (fun x y => lexLe (key x) (key y) = true) := by
  induction l with
  | nil => simp [sortByKey]
  | cons a t ih => exact insertByKey_pairwise key a (sortByKey key t) ih

/-! ## Lemmas about the filesystem model -/

theorem FsNode.lookup_append (fs : FsNode) (p q : FsPath) :
    fs.lookup (p ++ q) = (fs.lookup p).bind (fun n => n.lookup q) := by
  induction p generalizing fs with
  | nil => simp [FsNode.lookup]
  | cons s rest ih =>
    cases fs with
    | file => simp [FsNode.lookup]
    | dir r es =>
      simp only [List.cons_append, FsNode.lookup]
      cases es.lookup s with
      | none => simp
      | some child => simpa using ih child

theorem lookup_setEntry (es : List (String × FsNode)) (s : String) (n : FsNode) :
    (setEntry es s n).lookup s = some n := by
  induction es with
  | nil => simp [setEntry, List.lookup]
  | cons e rest ih =>
    obtain ⟨k, v⟩ := e
    by_cases h : k = s
    · subst h
      simp [setEntry, List.lookup]
    · have hks : (s == k) = false := by
        simp only [beq_eq_false_iff_ne]
        exact fun h' => h h'.symm
      simp [setEntry, h, List.lookup, hks, ih]

theorem lookup_filter_ne (es : List (String × FsNode)) (s : String) :
    (es.filter (fun e => e.1 ≠ s)).lookup s = none := by
  induction es with
  | nil => simp
  | cons e rest ih =>
    obtain ⟨k, v⟩ := e
    by_cases h : k = s
    · subst h
      simpa using ih
    · have hks : (s == k) = false := by
        simp only [beq_eq_false_iff_ne]
        exact fun h' => h h'.symm
      simpa [List.filter_cons, h, List.lookup, hks] using ih

theorem removePath_lookup (par : FsPath) (leaf : String) (fs : FsNode) :
    (fs.removePath (par ++ [leaf])).lookup (par ++ [leaf]) = none := by
  induction par generalizing fs with
  | nil =>
    cases fs with
    | file => simp [FsNode.removePath, FsNode.lookup]
    | dir r es =>
      have h0 : List.lookup leaf (List.filter (fun e => !decide (e.1 = leaf)) es) = none := by
        simpa using lookup_filter_ne es leaf
      simp [FsNode.removePath, FsNode.lookup, h0]
  | cons s rest ih =>
    cases fs with
    | file => simp [FsNode.removePath, FsNode.lookup]
    | dir r es =>
      have hne : (rest ++ [leaf]).isEmpty = false := by
        cases rest <;> simp
      cases hl : es.lookup s with
      | none => simp [FsNode.removePath, FsNode.lookup, hne, hl]
      | some child =>
        simp [FsNode.removePath, FsNode.lookup, hne, hl, lookup_setEntry, ih child]

theorem removePath_parent_exists (par : FsPath) (leaf : String) (fs : FsNode)
    (h : pathExists fs par = true) :
    pathExists (fs.removePath (par ++ [leaf])) par = true := by
  induction par generalizing fs with
  | nil => simp [pathExists, FsNode.lookup]
  | cons s rest ih =>
    cases fs with
    | file => simp [pathExists, FsNode.lookup] at h
    | dir r es =>
      have hne : (rest ++ [leaf]).isEmpty = false := by
        cases rest <;> simp
      cases hl : es.lookup s with
      | none =>
        simp only [pathExists, FsNode.lookup, hl] at h
        simp at h
      | some child =>
        have hc : pathExists child rest = true := by
          simpa [pathExists, FsNode.lookup, hl] using h
        simp [pathExists, FsNode.removePath, FsNode.lookup, hne, hl,
          lookup_setEntry]
        simpa [pathExists] using ih child hc

theorem mkDirTree_lookup (p : FsPath) : (mkDirTree p).lookup p = some (.dir true []) := by
  induction p with
  | nil => rfl
  | cons s rest ih => simpa [mkDirTree, FsNode.lookup, List.lookup] using ih

theorem pathExists_mkDirTree (p : FsPath) : pathExists (mkDirTree p) p = true := by
  simp [pathExists, mkDirTree_lookup]

theorem readDir_ok (fs : FsNode) (p : FsPath) (es : List (String × FsNode))
    (h : readDir fs p = .ok es) : fs.lookup p = some (.dir true es) := by
  unfold readDir at h
  cases hl : fs.lookup p with
  | none => rw [hl] at h; cases h
  | some n =>
    rw [hl] at h
    cases n with
    | file => cases h
    | dir b es' =>
      cases b with
      | false => cases h
      | true => cases h; rfl

/-! ## Lemmas about error-propagating traversal -/

theorem mapExcept_ok_forall₂ {α β ε : Type} (f : α → Except ε β) (l : List α)
    (bs : List β) (h : mapExcept f l = .ok bs) :
    List.Forall₂ (fun a b => f a = .ok b) l bs := by
  induction l generalizing bs with
  | nil =>
    simp only [mapExcept] at h
    cases h
    exact List.Forall₂.nil
  | cons a t ih =>
    simp only [mapExcept] at h
    cases hfa : f a with
    | error e => rw [hfa] at h; simp [Bind.bind, Except.bind] at h
    | ok b =>
      rw [hfa] at h
      cases hmt : mapExcept f t with
      | error e => rw [hmt] at h; simp [Bind.bind, Except.bind] at h
      | ok bs' =>
        rw [hmt] at h
        simp only [Bind.bind, Except.bind, Except.pure] at h
        cases h
        exact List.Forall₂.cons hfa (ih bs' hmt)

theorem mapExcept_error_of_mem {α β ε : Type} (f : α → Except ε β) (l : List α)
    (a : α) (ha : a ∈ l) (e : ε) (hf : f a = .error e) :
    ∃ e', mapExcept f l = .error e' := by
  induction l with
  | nil => cases ha
  | cons x t ih =>
    rcases List.mem_cons.mp ha with h | h
    · exact ⟨e, by simp [mapExcept, ← h, hf, Bind.bind, Except.bind]⟩
    · cases hfx : f x with
      | error e' => exact ⟨e', by simp [mapExcept, hfx, Bind.bind, Except.bind]⟩
      | ok b =>
        obtain ⟨e', he'⟩ := ih h
        exact ⟨e', by simp [mapExcept, hfx, he', Bind.bind, Except.bind]⟩

/-! ## Idempotence of trimming -/

theorem dropWhile_dropWhile {α : Type} (p : α → Bool) (l : List α) :
    (l.dropWhile p).dropWhile p = l.dropWhile p := by
  induction l with
  | nil => rfl
  | cons a t ih =>
    by_cases h : p a
    · simp [List.dropWhile_cons, h, ih]
    · simp [List.dropWhile_cons, h]

theorem dropWhile_eq_self_of_prefix {α : Type} (p : α → Bool) (l l' : List α)
    (hpre : l' <+: l) (hl : l.dropWhile p = l) : l'.dropWhile p = l' := by
  cases l' with
  | nil => rfl
  | cons a t =>
    obtain ⟨r, hr⟩ := hpre
    subst hr
    have h0 := List.dropWhile_eq_self_iff.mp hl (by simp)
    have ha : ¬ p a = true := by simpa using h0
    refine List.dropWhile_eq_self_iff.mpr ?_
    intro hl0
    simpa using ha

theorem rustTrimList_idem (l : List Char) :
    rustTrimList (rustTrimList l) = rustTrimList l := by
  have hAdw : (l.dropWhile rustIsWhitespace).dropWhile rustIsWhitespace
      = l.dropWhile rustIsWhitespace := dropWhile_dropWhile _ _
  have hCpre :
      ((l.dropWhile rustIsWhitespace).reverse.dropWhile rustIsWhitespace).reverse
        <+: l.dropWhile rustIsWhitespace := by
    have hsuf : (l.dropWhile rustIsWhitespace).reverse.dropWhile rustIsWhitespace
        <:+ (l.dropWhile rustIsWhitespace).reverse := List.dropWhile_suffix _
    have h2 := List.reverse_prefix.mpr hsuf
    simpa using h2
  have h1 := dropWhile_eq_self_of_prefix rustIsWhitespace _ _ hCpre hAdw
  unfold rustTrimList
  rw [h1, List.reverse_reverse, dropWhile_dropWhile]

theorem rustTrim_idem (s : String) : rustTrim (rustTrim s) = rustTrim s := by
  show String.mk (rustTrimList (rustTrimList s.data)) = String.mk (rustTrimList s.data)
  rw [rustTrimList_idem]

theorem sanitize_branch_name_trim (b : String) :
    sanitize_branch_name (rustTrim b) = sanitize_branch_name b := by
  unfold sanitize_branch_name
  rw [rustTrim_idem]

/-! ## Forall₂ extraction helpers -/

theorem map_eq_of_forall₂ {α β : Type} (f : β → α) (l : List α) (l' : List β)
    (h : List.Forall₂ (fun a b => f b = a) l l') : l'.map f = l := by
  induction h with
  | nil => rfl
  | cons h₁ _ ih => simp [ih, h₁]

theorem forall₂_mem_right {α β : Type} (R : α → β → Prop) (l : List α)
    (l' : List β) (h : List.Forall₂ R l l') (b : β) (hb : b ∈ l') :
    ∃ a ∈ l, R a b := by
  induction h with
  | nil => cases hb
  | cons h₁ h₂ ih =>
    rcases List.mem_cons.mp hb with hb' | hb'
    · subst hb'
      exact ⟨_, List.mem_cons_self _ _, h₁⟩
    · obtain ⟨a, ha, hr⟩ := ih hb'
      exact ⟨a, List.mem_cons_of_mem _ ha, hr⟩

/-! ## Inversion lemmas for the scanner -/

theorem pathExists_false_lookup (fs : FsNode) (p : FsPath)
    (h : pathExists fs p = false) : fs.lookup p = none := by
  unfold pathExists at h
  cases hl : fs.lookup p with
  | none => rfl
  | some n => rw [hl] at h; cases h

theorem dirNamesAt_of_not_exists (fs : FsNode) (p : FsPath)
    (h : pathExists fs p = false) : dirNamesAt fs p = [] := by
  unfold dirNamesAt
  rw [pathExists_false_lookup fs p h]

theorem worktrees_for_repo_ok (fs : FsNode) (wroot : FsPath) (ws repo : String)
    (wts : List SessionWorktree)
    (h : worktrees_for_repo fs wroot ws repo = .ok wts) :
    wts.Pairwise (fun a b => lexLe a.name.data b.name.data = true) ∧
    (wts.map (·.name)).Perm (dirNamesAt fs (wroot ++ [ws, repo])) ∧
    ∀ w ∈ wts, w.terminals = [] := by
  unfold worktrees_for_repo at h
  by_cases hex : pathExists fs (wroot ++ [ws, repo]) = false
  · rw [if_pos hex] at h
    cases h
    refine ⟨List.Pairwise.nil, ?_, by simp⟩
    rw [dirNamesAt_of_not_exists fs _ hex]
    rfl
  · rw [if_neg hex] at h
    cases hrd : readDir fs (wroot ++ [ws, repo]) with
    | error e => rw [hrd] at h; simp [Bind.bind, Except.bind] at h
    | ok es =>
      rw [hrd] at h
      simp only [Bind.bind, Except.bind] at h
      cases h
      have hlk := readDir_ok fs _ es hrd
      refine ⟨sortByKey_pairwise _ _, ?_, ?_⟩
      · have hperm := sortByKey_perm (fun w : SessionWorktree => w.name.data)
          (((es.filter (fun e => e.2.isDir)).map (·.1)).map
            (fun n => (⟨n, []⟩ : SessionWorktree)))
        have hmap := hperm.map (fun w : SessionWorktree => w.name)
        unfold dirNamesAt
        rw [hlk]
        simpa [Function.comp] using hmap
      · intro w hw
        have hw' := (sortByKey_perm (fun w : SessionWorktree => w.name.data)
          _).mem_iff.mp hw
        rcases List.mem_map.mp hw' with ⟨n, _, hn⟩
        rw [← hn]

theorem repositories_from_dir_ok (fs : FsNode) (org : String)
    (org_path wroot : FsPath) (rs : List SessionRepository)
    (h : repositories_from_dir fs org org_path wroot = .ok rs) :
    ∃ es, readDir fs org_path = .ok es ∧
      rs.map (·.name) = sortedDirNames es ∧
      ∀ r ∈ rs, r.plans = [] ∧
        worktrees_for_repo fs wroot org r.name = .ok r.worktrees := by
  unfold repositories_from_dir at h
  cases hrd : readDir fs org_path with
  | error e => rw [hrd] at h; simp [Bind.bind, Except.bind] at h
  | ok es =>
    rw [hrd] at h
    simp only [Bind.bind, Except.bind] at h
    have hf := mapExcept_ok_forall₂ _ _ _ h
    have hstep : ∀ name r, ((worktrees_for_repo fs wroot org name).bind
        (fun wts => Except.ok (⟨name, [], wts⟩ : SessionRepository))) = .ok r →
        r.name = name ∧ r.plans = [] ∧
          worktrees_for_repo fs wroot org r.name = .ok r.worktrees := by
      intro name r hr
      cases hw : worktrees_for_repo fs wroot org name with
      | error e => rw [hw] at hr; simp [Except.bind] at hr
      | ok wts =>
        rw [hw] at hr
        simp only [Except.bind] at hr
        cases hr
        exact ⟨rfl, rfl, hw⟩
    refine ⟨es, rfl, ?_, ?_⟩
    · refine map_eq_of_forall₂ _ _ _ (hf.imp ?_)
      intro name r hr
      exact (hstep name r hr).1
    · intro r hr
      obtain ⟨name, _, hrel⟩ := forall₂_mem_right _ _ _ hf r hr
      exact ⟨(hstep name r hrel).2.1, (hstep name r hrel).2.2⟩

theorem workspaces_from_dir_ok (fs : FsNode) (workdir wroot : FsPath)
    (ws : List SessionWorkspace)
    (h : workspaces_from_dir fs workdir wroot = .ok ws) :
    (ws.map (·.name)).Perm (dirNamesAt fs workdir) ∧
    ws.Pairwise (fun a b => lexLe a.name.data b.name.data = true) ∧
    ∀ w ∈ ws, repositories_from_dir fs w.name (workdir ++ [w.name]) wroot
      = .ok w.repositories := by
  unfold workspaces_from_dir at h
  by_cases hex : pathExists fs workdir = false
  · rw [if_pos hex] at h
    cases h
    refine ⟨?_, List.Pairwise.nil, by simp⟩
    rw [dirNamesAt_of_not_exists fs _ hex]
    rfl
  · rw [if_neg hex] at h
    cases hrd : readDir fs workdir with
    | error e => rw [hrd] at h; simp [Bind.bind, Except.bind] at h
    | ok es =>
      rw [hrd] at h
      simp only [Bind.bind, Except.bind] at h
      have hf := mapExcept_ok_forall₂ _ _ _ h
      have hstep : ∀ name w,
          ((repositories_from_dir fs name (workdir ++ [name]) wroot).bind
            (fun repos => Except.ok (⟨name, repos⟩ : SessionWorkspace))) = .ok w →
          w.name = name ∧
            repositories_from_dir fs w.name (workdir ++ [w.name]) wroot
              = .ok w.repositories := by
        intro name w hw
        cases hrep : repositories_from_dir fs name (workdir ++ [name]) wroot with
        | error e => rw [hrep] at hw; simp [Except.bind] at hw
        | ok repos =>
          rw [hrep] at hw
          simp only [Except.bind] at hw
          cases hw
          exact ⟨rfl, hrep⟩
      have hmap : ws.map (·.name) = sortedDirNames es := by
        refine map_eq_of_forall₂ _ _ _ (hf.imp ?_)
        intro name w hw
        exact (hstep name w hw).1
      have hlk := readDir_ok fs _ es hrd
      refine ⟨?_, ?_, ?_⟩
      · rw [hmap]
        unfold dirNamesAt
        rw [hlk]
        exact sortByKey_perm _ _
      · have hpw := sortByKey_pairwise (fun s : String => s.data)
          ((es.filter (fun e => e.2.isDir)).map (·.1))
        have : (ws.map (·.name)).Pairwise
            (fun x y : String => lexLe x.data y.data = true) := by
          rw [hmap]
          exact hpw
        exact (List.pairwise_map).mp this
      · intro w hw
        obtain ⟨name, _, hrel⟩ := forall₂_mem_right _ _ _ hf w hw
        exact (hstep name w hrel).2

/-! ## Claim theorems -/

/-- Claim C5: the repository-URL parser satisfies the spec's test vectors:
`https://host/ws/repo.git`, `git@host:ws/repo.git` and `ws/repo` all parse to
workspace `ws` and repository `repo`; `https://host/onlyrepo` fails with the
missing-workspace-or-repository error; a whitespace-only input fails with the
empty-input error. -/
theorem parse_repository_url_vectors :
    parse_repository_url "https://host/ws/repo.git" = .ok ⟨"ws", "repo"⟩ ∧
    parse_repository_url "git@host:ws/repo.git" = .ok ⟨"ws", "repo"⟩ ∧
    parse_repository_url "ws/repo" = .ok ⟨"ws", "repo"⟩ ∧
    parse_repository_url "https://host/onlyrepo"
      = .error "repository URL must include workspace and repository" ∧
    parse_repository_url "   " = .error "repository_url cannot be empty" :=
  ⟨rfl, rfl, rfl, rfl, rfl⟩

/-- Claim C7: for every string, `sanitize_branch_name` trims whitespace from
both ends and then maps each character to itself when it is an ASCII letter
(`A`–`Z` or `a`–`z`), an ASCII digit (`0`–`9`) or `-`, and to `_` otherwise;
in particular the three test vectors of the spec hold. -/
theorem sanitize_branch_name_spec :
    (∀ b : String, sanitize_branch_name b =
      String.mk ((rustTrim b).data.map (fun c =>
        if (0x41 ≤ c.toNat ∧ c.toNat ≤ 0x5A) ∨ (0x61 ≤ c.toNat ∧ c.toNat ≤ 0x7A) ∨
            (0x30 ≤ c.toNat ∧ c.toNat ≤ 0x39) ∨ c = '-' then c else '_'))) ∧
    sanitize_branch_name "feat/new-feature" = "feat_new-feature" ∧
    sanitize_branch_name "  spaced  " = "spaced" ∧
    sanitize_branch_name "a/b c!" = "a_b_c_" := by
  refine ⟨?_, rfl, rfl, rfl⟩
  intro b
  unfold sanitize_branch_name
  congr 1
  apply List.map_congr_left
  intro c _
  have h : (rustIsAsciiAlphanumeric c || c = '-') = true ↔
      ((0x41 ≤ c.toNat ∧ c.toNat ≤ 0x5A) ∨ (0x61 ≤ c.toNat ∧ c.toNat ≤ 0x7A) ∨
       (0x30 ≤ c.toNat ∧ c.toNat ≤ 0x39) ∨ c = '-') := by
    simp [rustIsAsciiAlphanumeric]
    tauto
  by_cases hc : ((0x41 ≤ c.toNat ∧ c.toNat ≤ 0x5A) ∨ (0x61 ≤ c.toNat ∧ c.toNat ≤ 0x7A) ∨
      (0x30 ≤ c.toNat ∧ c.toNat ≤ 0x39) ∨ c = '-')
  · rw [if_pos (h.mpr hc), if_pos hc]
  · rw [if_neg (fun hb => hc (h.mp hb)), if_neg hc]

/-- Claim C6 counterexample: the source does not drop exactly the empty
segments — it also drops whitespace-only segments.  On the input `a/ /b` the
parser succeeds with workspace `a`, while the claimed segment list (dropping
only empty segments) is `[a, " ", b]`, whose second-to-last element is `" "`,
not `a`. -/
theorem coordinates_segments_counterexample :
    parse_repository_url "a/ /b" = .ok ⟨"a", "b"⟩ ∧
    urlSegmentsClaimed "a/ /b" = ["a", " ", "b"] ∧
    (urlSegmentsClaimed "a/ /b")[(urlSegmentsClaimed "a/ /b").length - 2]?
      = some " " ∧
    ("a" : String) ≠ " " :=
  ⟨rfl, rfl, rfl, by decide⟩

/-- Claim C6 (amended): for every input on which the parser succeeds, the
extracted path is split on `/` dropping exactly the segments that are empty
after trimming whitespace (not only the exactly-empty ones); fewer than two
remaining segments fail with the missing-workspace-or-repository error; the
workspace is the second-to-last remaining segment verbatim, the repository
is the last segment with every trailing `.git` suffix stripped, and both
returned fields are non-empty. -/
theorem coordinates_from_path_characterization :
    (∀ raw c, parse_repository_url raw = .ok c →
      ∃ path, extract_path raw = .ok path ∧
        2 ≤ (urlSegments path).length ∧
        (urlSegments path)[(urlSegments path).length - 2]? = some c.workspace ∧
        (∃ last, (urlSegments path).getLast? = some last ∧
          c.repository = String.mk (rustTrimEndMatches last.data ".git".data)) ∧
        c.workspace ≠ "" ∧ c.repository ≠ "") ∧
    (∀ p, (urlSegments p).length < 2 →
      coordinates_from_path p
        = .error "repository URL must include workspace and repository") := by
  constructor
  · intro raw c h
    unfold parse_repository_url at h
    cases hep : extract_path raw with
    | error e => rw [hep] at h; simp [Except.bind] at h
    | ok path =>
      rw [hep] at h
      simp only [Except.bind] at h
      refine ⟨path, rfl, ?_⟩
      unfold coordinates_from_path at h
      by_cases hlen : (urlSegments path).length < 2
      · rw [if_pos hlen] at h
        simp at h
      · rw [if_neg hlen] at h
        simp only [] at h
        by_cases hrep : String.mk (rustTrimEndMatches
            (((urlSegments path).getLast?.getD "").data) ".git".data) = ""
        · rw [if_pos hrep] at h
          simp at h
        · rw [if_neg hrep] at h
          have hc : c = ⟨((urlSegments path)[(urlSegments path).length - 2]?).getD "",
              String.mk (rustTrimEndMatches
                (((urlSegments path).getLast?.getD "").data) ".git".data)⟩ := by
            cases h
            rfl
          have hlen2 : 2 ≤ (urlSegments path).length := by omega
          have hlt : (urlSegments path).length - 2 < (urlSegments path).length := by
            omega
          have hne : urlSegments path ≠ [] := by
            intro h0
            rw [h0] at hlen2
            simp at hlen2
          have hlast := List.getLast?_eq_getLast (urlSegments path) hne
          refine ⟨hlen2, ?_, ?_, ?_, ?_⟩
          · rw [hc]
            simp [List.getElem?_eq_getElem hlt]
          · refine ⟨(urlSegments path).getLast hne, hlast, ?_⟩
            rw [hc]
            simp [hlast]
          · rw [hc]
            simp only [List.getElem?_eq_getElem hlt, Option.getD_some]
            have hmem : (urlSegments path)[(urlSegments path).length - 2] ∈
                urlSegments path := List.getElem_mem _
            have hfil := (List.mem_filter.mp hmem).2
            intro h0
            rw [h0] at hfil
            simp [rustTrim, rustTrimList] at hfil
          · rw [hc]
            exact hrep
  · intro p hlen
    unfold coordinates_from_path
    rw [if_pos hlen]

/-- Claim C10: the list-sessions handler converts every scan failure into a
successful response with an empty workspace list, and passes a successful
scan through unchanged; no scan error is surfaced to the HTTP caller. -/
theorem sessions_swallows_scan_errors :
    ∀ (fs : FsNode) (workdir worktrees_root : FsPath),
      (∀ e, workspaces_from_dir fs workdir worktrees_root = .error e →
        sessions fs workdir worktrees_root = ⟨[]⟩) ∧
      (∀ l, workspaces_from_dir fs workdir worktrees_root = .ok l →
        sessions fs workdir worktrees_root = ⟨l⟩) := by
  intro fs wd wr
  constructor
  · intro e he
    unfold sessions
    rw [he]
  · intro l hl
    unfold sessions
    rw [hl]

/-- Claim C10 witness: on a filesystem whose root exists but is unreadable,
the scan fails, and the handler still answers with a successful empty list. -/
theorem sessions_swallows_scan_errors_witness :
    sessions (.dir false []) [] [] = ⟨[]⟩ :=
  (sessions_swallows_scan_errors (.dir false []) [] []).1
    "failed to read directory " rfl

/-- Claim C8: for every directory tree, the scan output at each of the three
levels consists of exactly the names of the immediate subdirectories at that
level (non-directory entries are skipped), and siblings are sorted
lexicographically by name at every level. -/
theorem scan_sorted_and_complete (fs : FsNode) (workdir wroot : FsPath)
    (ws : List SessionWorkspace)
    (h : workspaces_from_dir fs workdir wroot = .ok ws) :
    ((ws.map (·.name)).Perm (dirNamesAt fs workdir) ∧
      ws.Pairwise (fun a b => lexLe a.name.data b.name.data = true)) ∧
    (∀ w ∈ ws,
      (w.repositories.map (·.name)).Perm (dirNamesAt fs (workdir ++ [w.name])) ∧
      w.repositories.Pairwise (fun a b => lexLe a.name.data b.name.data = true)) ∧
    (∀ w ∈ ws, ∀ r ∈ w.repositories,
      (r.worktrees.map (·.name)).Perm (dirNamesAt fs (wroot ++ [w.name, r.name])) ∧
      r.worktrees.Pairwise (fun a b => lexLe a.name.data b.name.data = true)) := by
  obtain ⟨hperm, hpw, hmem⟩ := workspaces_from_dir_ok fs workdir wroot ws h
  refine ⟨⟨hperm, hpw⟩, ?_, ?_⟩
  · intro w hw
    obtain ⟨es, hrd, hmap, _⟩ := repositories_from_dir_ok _ _ _ _ _ (hmem w hw)
    constructor
    · rw [hmap]
      unfold dirNamesAt
      rw [readDir_ok _ _ _ hrd]
      unfold sortedDirNames
      exact sortByKey_perm _ _
    · have hpw2 := sortByKey_pairwise (fun s : String => s.data)
        ((es.filter (fun e => e.2.isDir)).map (·.1))
      have hnames : (w.repositories.map (·.name)).Pairwise
          (fun x y : String => lexLe x.data y.data = true) := by
        rw [hmap]
        exact hpw2
      exact (List.pairwise_map).mp hnames
  · intro w hw r hr
    obtain ⟨es, hrd, hmap, hrs⟩ := repositories_from_dir_ok _ _ _ _ _ (hmem w hw)
    obtain ⟨_, hwt⟩ := hrs r hr
    obtain ⟨hpw3, hperm3, _⟩ := worktrees_for_repo_ok _ _ _ _ _ hwt
    exact ⟨hperm3, hpw3⟩

/-- Claim C9: the scan returns an empty list (not an error) when the
working root does not exist; a repository whose directory under the
worktrees root does not exist gets an empty worktree list; but a read
failure on an existing directory — an unreadable workspace directory under
the root, or an unreadable repository directory under the worktrees root —
propagates to the caller as an error instead of yielding a partial tree. -/
theorem scan_error_handling :
    (∀ (fs : FsNode) (workdir wroot : FsPath),
      pathExists fs workdir = false →
      workspaces_from_dir fs workdir wroot = .ok []) ∧
    (∀ (fs : FsNode) (wroot : FsPath) (ws repo : String),
      pathExists fs (wroot ++ [ws, repo]) = false →
      worktrees_for_repo fs wroot ws repo = .ok []) ∧
    (∀ (fs : FsNode) (workdir wroot : FsPath) (name : String)
        (es es' : List (String × FsNode)),
      fs.lookup workdir = some (.dir true es) →
      es.lookup name = some (.dir false es') →
      ∃ e, workspaces_from_dir fs workdir wroot = .error e) ∧
    (∀ (fs : FsNode) (wroot : FsPath) (ws repo : String)
        (es : List (String × FsNode)),
      fs.lookup (wroot ++ [ws, repo]) = some (.dir false es) →
      ∃ e, worktrees_for_repo fs wroot ws repo = .error e) := by
  refine ⟨?_, ?_, ?_, ?_⟩
  · intro fs wd wr h
    unfold workspaces_from_dir
    rw [if_pos h]
  · intro fs wr ws repo h
    unfold worktrees_for_repo
    rw [if_pos h]
  · intro fs wd wr name es es' hlk hname
    have hex : pathExists fs wd = true := by simp [pathExists, hlk]
    have hexf : ¬ (pathExists fs wd = false) := by simp [hex]
    unfold workspaces_from_dir
    rw [if_neg hexf]
    have hrd : readDir fs wd = .ok es := by simp [readDir, hlk]
    rw [hrd]
    simp only [Bind.bind, Except.bind]
    have hmem0 : (name, FsNode.dir false es') ∈ es := by
      obtain ⟨l₁, l₂, hsplit, _⟩ := List.lookup_eq_some_iff.mp hname
      rw [hsplit]
      simp
    have hmemf : name ∈ (es.filter (fun e => e.2.isDir)).map (·.1) :=
      List.mem_map.mpr ⟨(name, .dir false es'),
        List.mem_filter.mpr ⟨hmem0, by simp [FsNode.isDir]⟩, rfl⟩
    have hmems : name ∈ sortedDirNames es := by
      unfold sortedDirNames
      exact (sortByKey_perm _ _).mem_iff.mpr hmemf
    have hlk2 : fs.lookup (wd ++ [name]) = some (.dir false es') := by
      rw [FsNode.lookup_append, hlk]
      simp [Option.bind, FsNode.lookup, hname]
    have hrd2 : readDir fs (wd ++ [name])
        = .error ("failed to read directory " ++ pathDisplay (wd ++ [name])) := by
      simp [readDir, hlk2]
    have hrep : repositories_from_dir fs name (wd ++ [name]) wr
        = .error ("failed to read directory " ++ pathDisplay (wd ++ [name])) := by
      unfold repositories_from_dir
      rw [hrd2]
      simp [Bind.bind, Except.bind]
    exact mapExcept_error_of_mem _ _ name hmems
      ("failed to read directory " ++ pathDisplay (wd ++ [name]))
      (by simp [Bind.bind, Except.bind, hrep])
  · intro fs wr ws repo es hlk
    have hex : pathExists fs (wr ++ [ws, repo]) = true := by
      simp [pathExists, hlk]
    have hexf : ¬ (pathExists fs (wr ++ [ws, repo]) = false) := by simp [hex]
    unfold worktrees_for_repo
    rw [if_neg hexf]
    have hrd : readDir fs (wr ++ [ws, repo])
        = .error ("failed to read directory " ++ pathDisplay (wr ++ [ws, repo])) := by
      simp [readDir, hlk]
    rw [hrd]
    exact ⟨_, rfl⟩

/-- Claim C3: `create_worktree` with a branch that is empty after trimming
fails with the empty-branch error and performs no filesystem writes; with a
non-empty branch but a repository path lacking a `.git` entry it fails with
the not-a-git-repository error before creating any directory and before
invoking the external process. -/
theorem create_worktree_validation :
    ∀ (fs : FsNode) (repo_path : FsPath) (workspace repository branch : String)
      (worktrees_root : FsPath) (git : GitWorktreeOracle),
    (rustTrim branch = "" →
      create_worktree fs repo_path workspace repository branch worktrees_root git
        = ⟨.error "branch name cannot be empty", fs, false, none⟩) ∧
    (rustTrim branch ≠ "" →
      pathExists fs (repo_path ++ [".git"]) = false →
      create_worktree fs repo_path workspace repository branch worktrees_root git
        = ⟨.error (pathDisplay repo_path ++ " is not a git repository"),
           fs, false, none⟩) := by
  intro fs rp ws rep br wr git
  constructor
  · intro hb
    simp only [create_worktree]
    rw [if_pos hb]
  · intro hb hgit
    simp only [create_worktree]
    rw [if_neg hb, if_pos hgit]

/-- Claim C4: when validation passes, the parent directory is created and
the external worktree-add succeeds, `create_worktree` returns exactly
`worktrees_root/workspace/repository/sanitize(branch)`, while the branch
argument passed to the external branch-creating call is the trimmed,
unsanitized branch. -/
theorem create_worktree_success (fs : FsNode) (repo_path : FsPath)
    (workspace repository branch : String) (worktrees_root : FsPath)
    (git : GitWorktreeOracle) (fs1 : FsNode)
    (hb : rustTrim branch ≠ "")
    (hgit : pathExists fs (repo_path ++ [".git"]) = true)
    (hcd : fs.createDirAll (worktrees_root ++ [workspace, repository]) = some fs1)
    (hsucc : (git fs1 (rustTrim branch)
        (worktrees_root ++ [workspace, repository, sanitize_branch_name branch])).success
      = true) :
    (create_worktree fs repo_path workspace repository branch worktrees_root
        git).result
      = .ok (worktrees_root ++ [workspace, repository, sanitize_branch_name branch]) ∧
    (create_worktree fs repo_path workspace repository branch worktrees_root
        git).gitBranchArg = some (rustTrim branch) := by
  have hgitne : ¬ (pathExists fs (repo_path ++ [".git"]) = false) := by
    simp [hgit]
  have hassoc : (worktrees_root ++ [workspace, repository])
      ++ [sanitize_branch_name branch]
      = worktrees_root ++ [workspace, repository, sanitize_branch_name branch] := by
    simp
  simp only [create_worktree]
  rw [if_neg hb, if_neg hgitne, sanitize_branch_name_trim, hcd]
  simp only []
  rw [hassoc, if_pos hsucc]
  exact ⟨rfl, rfl⟩

theorem clone_session_ok_inv (fs : FsNode) (workdir : FsPath) (url : String)
    (git : GitCloneOracle) (rm : Bool) (resp : CloneSessionResponse)
    (h : (clone_session fs workdir url git rm).result = .ok resp) :
    ∃ repo fs1, parse_repository_url url = .ok repo ∧
      resp = ⟨repo.workspace, repo.repository,
        (workdir ++ [repo.workspace]) ++ [repo.repository]⟩ ∧
      fs.createDirAll (workdir ++ [repo.workspace]) = some fs1 ∧
      (git fs1 ((workdir ++ [repo.workspace]) ++ [repo.repository])).success = true ∧
      (clone_session fs workdir url git rm).fs
        = (git fs1 ((workdir ++ [repo.workspace]) ++ [repo.repository])).fs := by
  cases hp : parse_repository_url url with
  | error e =>
    simp only [clone_session, hp] at h
    exact Except.noConfusion h
  | ok repo =>
    by_cases hex : pathExists fs ((workdir ++ [repo.workspace]) ++ [repo.repository])
        = true
    · simp only [clone_session, hp] at h
      rw [if_pos hex] at h
      simp at h
    · cases hcd : fs.createDirAll (workdir ++ [repo.workspace]) with
      | none =>
        simp only [clone_session, hp] at h
        rw [if_neg hex, hcd] at h
        simp at h
      | some fs1 =>
        by_cases hgs : (git fs1 ((workdir ++ [repo.workspace])
            ++ [repo.repository])).success = true
        · refine ⟨repo, fs1, rfl, ?_, hcd, hgs, ?_⟩
          · simp only [clone_session, hp] at h
            rw [if_neg hex, hcd] at h
            simp only [] at h
            rw [if_pos hgs] at h
            cases h
            rfl
          · simp only [clone_session, hp]
            rw [if_neg hex, hcd]
            simp only []
            rw [if_pos hgs]
        · simp only [clone_session, hp] at h
          rw [if_neg hex, hcd] at h
          simp only [] at h
          rw [if_neg hgs] at h
          simp at h

/-- Claim C1: if the clone target `workdir/workspace/repository` already
exists, `clone_session` fails with the conflict error, leaves the filesystem
unchanged and never spawns the external clone; in particular a second clone
of the same URL against the unchanged result of a successful first clone
deterministically fails the same way (assuming a successful external clone
leaves the target directory in place). -/
theorem clone_session_conflict :
    ∀ (fs : FsNode) (workdir : FsPath) (url : String) (git git₂ : GitCloneOracle)
      (rm rm₂ : Bool),
    (∀ repo, parse_repository_url url = .ok repo →
      pathExists fs (workdir ++ [repo.workspace, repo.repository]) = true →
      clone_session fs workdir url git rm
        = ⟨.error (.conflict,
            cloneConflictMsg (workdir ++ [repo.workspace, repo.repository])),
           fs, false⟩) ∧
    (∀ resp, (∀ f t, (git f t).success = true → pathExists (git f t).fs t = true) →
      (clone_session fs workdir url git rm).result = .ok resp →
      clone_session (clone_session fs workdir url git rm).fs workdir url git₂ rm₂
        = ⟨.error (.conflict,
            cloneConflictMsg (workdir ++ [resp.workspace, resp.repository])),
           (clone_session fs workdir url git rm).fs, false⟩) := by
  intro fs workdir url git git₂ rm rm₂
  have hassoc : ∀ a b : String, (workdir ++ [a]) ++ [b] = workdir ++ [a, b] := by
    intro a b
    simp
  have hA : ∀ (fs' : FsNode) (g : GitCloneOracle) (r : Bool)
      (repo : RepoCoordinates),
      parse_repository_url url = .ok repo →
      pathExists fs' (workdir ++ [repo.workspace, repo.repository]) = true →
      clone_session fs' workdir url g r
        = ⟨.error (.conflict,
            cloneConflictMsg (workdir ++ [repo.workspace, repo.repository])),
           fs', false⟩ := by
    intro fs' g r repo hp hex
    simp only [clone_session, hp]
    rw [hassoc, if_pos hex]
  constructor
  · intro repo hp hex
    exact hA fs git rm repo hp hex
  · intro resp hfaith hok
    obtain ⟨repo, fs1, hp, hresp, hcd, hgs, hfs⟩ :=
      clone_session_ok_inv fs workdir url git rm resp hok
    have hex2 : pathExists (clone_session fs workdir url git rm).fs
        (workdir ++ [repo.workspace, repo.repository]) = true := by
      rw [hfs, ← hassoc]
      exact hfaith fs1 _ hgs
    rw [hA _ git₂ rm₂ repo hp hex2, hresp]

/-- Claim C2: if the external clone fails after the target's parent was
prepared, `clone_session` returns the clone-failure error with the process
having been spawned; when the best-effort removal succeeds the target no
longer exists while the parent is preserved, and when the removal fails the
filesystem is exactly what the failed clone left behind — the original error
is returned either way. -/
theorem clone_session_rollback (fs : FsNode) (workdir : FsPath) (url : String)
    (git : GitCloneOracle) (rm : Bool) (repo : RepoCoordinates) (fs1 : FsNode)
    (hp : parse_repository_url url = .ok repo)
    (hex : pathExists fs (workdir ++ [repo.workspace, repo.repository]) = false)
    (hcd : fs.createDirAll (workdir ++ [repo.workspace]) = some fs1)
    (hgf : (git fs1 (workdir ++ [repo.workspace, repo.repository])).success
      = false) :
    (clone_session fs workdir url git rm).result
      = .error (.internalServerError, "failed to clone repository") ∧
    (clone_session fs workdir url git rm).gitInvoked = true ∧
    (rm = true →
      pathExists (clone_session fs workdir url git rm).fs
        (workdir ++ [repo.workspace, repo.repository]) = false) ∧
    (rm = true →
      pathExists (git fs1 (workdir ++ [repo.workspace, repo.repository])).fs
          (workdir ++ [repo.workspace]) = true →
      pathExists (clone_session fs workdir url git rm).fs
        (workdir ++ [repo.workspace]) = true) ∧
    (rm = false →
      (clone_session fs workdir url git rm).fs
        = (git fs1 (workdir ++ [repo.workspace, repo.repository])).fs) := by
  have hassoc : (workdir ++ [repo.workspace]) ++ [repo.repository]
      = workdir ++ [repo.workspace, repo.repository] := by
    simp
  have hexne : ¬ (pathExists fs
      ((workdir ++ [repo.workspace]) ++ [repo.repository]) = true) := by
    rw [hassoc]
    simp [hex]
  have hco : clone_session fs workdir url git rm
      = ⟨.error (.internalServerError, "failed to clone repository"),
         if rm then
           ((git fs1 (workdir ++ [repo.workspace, repo.repository])).fs).removePath
             (workdir ++ [repo.workspace, repo.repository])
         else (git fs1 (workdir ++ [repo.workspace, repo.repository])).fs,
         true⟩ := by
    simp only [clone_session, hp]
    rw [if_neg hexne, hcd]
    simp only []
    rw [hassoc, if_neg (by simp [hgf])]
  rw [hco]
  refine ⟨rfl, rfl, ?_, ?_, ?_⟩
  · intro hrm
    have h1 := removePath_lookup (workdir ++ [repo.workspace]) repo.repository
      ((git fs1 (workdir ++ [repo.workspace, repo.repository])).fs)
    rw [hassoc] at h1
    rw [hrm, if_pos rfl]
    simp [pathExists, h1]
  · intro hrm hpar
    have h2 := removePath_parent_exists (workdir ++ [repo.workspace])
      repo.repository
      ((git fs1 (workdir ++ [repo.workspace, repo.repository])).fs) hpar
    rw [hassoc] at h2
    rw [hrm, if_pos rfl]
    exact h2
  · intro hrm
    rw [hrm]
    simp

/-- Claim C1 witness: a clone into an already-occupied target fails with the
conflict error and changes nothing, and a second clone right after a
successful first one fails the same way. -/
theorem clone_session_conflict_witness :
    (clone_session (mkDirTree ["ws", "repo"]) [] "ws/repo"
        (fun _ t => ⟨true, mkDirTree t⟩) true
      = ⟨.error (.conflict, cloneConflictMsg ["ws", "repo"]),
         mkDirTree ["ws", "repo"], false⟩) ∧
    (clone_session (clone_session (.dir true []) [] "ws/repo"
          (fun _ t => ⟨true, mkDirTree t⟩) true).fs [] "ws/repo"
        (fun _ t => ⟨true, mkDirTree t⟩) true
      = ⟨.error (.conflict, cloneConflictMsg ["ws", "repo"]),
         (clone_session (.dir true []) [] "ws/repo"
           (fun _ t => ⟨true, mkDirTree t⟩) true).fs, false⟩) :=
  ⟨(clone_session_conflict (mkDirTree ["ws", "repo"]) [] "ws/repo"
      (fun _ t => ⟨true, mkDirTree t⟩) (fun _ t => ⟨true, mkDirTree t⟩)
      true true).1 ⟨"ws", "repo"⟩ rfl (by decide),
   (clone_session_conflict (.dir true []) [] "ws/repo"
      (fun _ t => ⟨true, mkDirTree t⟩) (fun _ t => ⟨true, mkDirTree t⟩)
      true true).2 ⟨"ws", "repo", ["ws", "repo"]⟩
      (fun _ t _ => pathExists_mkDirTree t) rfl⟩

/-- Claim C2 witness: a failing external clone on an empty working root
yields the clone-failure error, the spawned flag, a removed target, a
surviving parent, and the unmodified post-clone filesystem when removal is
skipped. -/
theorem clone_session_rollback_witness :
    (clone_session (.dir true []) [] "ws/repo" (fun f _ => ⟨false, f⟩)
        true).result = .error (.internalServerError, "failed to clone repository") ∧
    (clone_session (.dir true []) [] "ws/repo" (fun f _ => ⟨false, f⟩)
        true).gitInvoked = true ∧
    (true = true →
      pathExists (clone_session (.dir true []) [] "ws/repo"
          (fun f _ => ⟨false, f⟩) true).fs ["ws", "repo"] = false) ∧
    (true = true →
      pathExists (.dir true [("ws", .dir true [])] : FsNode) ["ws"] = true →
      pathExists (clone_session (.dir true []) [] "ws/repo"
          (fun f _ => ⟨false, f⟩) true).fs ["ws"] = true) ∧
    (true = false →
      (clone_session (.dir true []) [] "ws/repo" (fun f _ => ⟨false, f⟩)
        true).fs = (.dir true [("ws", .dir true [])] : FsNode)) :=
  clone_session_rollback (.dir true []) [] "ws/repo" (fun f _ => ⟨false, f⟩)
    true ⟨"ws", "repo"⟩ (.dir true [("ws", .dir true [])]) rfl (by decide) rfl rfl

/-- Claim C3 witness: a whitespace-only branch is rejected with no
filesystem writes, and a non-git repository path is rejected before any
directory creation or process spawn. -/
theorem create_worktree_validation_witness :
    (create_worktree (.dir true []) ["r"] "w" "p" "   " []
        (fun f _ _ => ⟨false, f⟩)
      = ⟨.error "branch name cannot be empty", .dir true [], false, none⟩) ∧
    (create_worktree (.dir true []) ["r"] "w" "p" "b" []
        (fun f _ _ => ⟨false, f⟩)
      = ⟨.error (pathDisplay ["r"] ++ " is not a git repository"),
         .dir true [], false, none⟩) :=
  ⟨(create_worktree_validation (.dir true []) ["r"] "w" "p" "   " []
      (fun f _ _ => ⟨false, f⟩)).1 rfl,
   (create_worktree_validation (.dir true []) ["r"] "w" "p" "b" []
      (fun f _ _ => ⟨false, f⟩)).2 (by decide) rfl⟩

/-- Claim C4 witness: a successful worktree creation for branch
` feat/x ` returns the sanitized target path `w/p/feat_x` while passing the
trimmed branch `feat/x` to the external call. -/
theorem create_worktree_success_witness :
    (create_worktree (.dir true [("r", .dir true [(".git", .dir true [])])])
        ["r"] "w" "p" " feat/x " [] (fun f _ _ => ⟨true, f⟩)).result
      = .ok ["w", "p", "feat_x"] ∧
    (create_worktree (.dir true [("r", .dir true [(".git", .dir true [])])])
        ["r"] "w" "p" " feat/x " [] (fun f _ _ => ⟨true, f⟩)).gitBranchArg
      = some "feat/x" :=
  create_worktree_success (.dir true [("r", .dir true [(".git", .dir true [])])])
    ["r"] "w" "p" " feat/x " [] (fun f _ _ => ⟨true, f⟩)
    (.dir true [("r", .dir true [(".git", .dir true [])]),
      ("w", .dir true [("p", .dir true [])])])
    (by decide) (by decide) rfl rfl

/-- Claim C6 witness: the characterization instantiated on
`https://host/ws/repo.git`, and the too-few-segments failure on `x`. -/
theorem coordinates_from_path_characterization_witness :
    (∃ path, extract_path "https://host/ws/repo.git" = .ok path ∧
      2 ≤ (urlSegments path).length ∧
      (urlSegments path)[(urlSegments path).length - 2]? = some "ws" ∧
      (∃ last, (urlSegments path).getLast? = some last ∧
        ("repo" : String) = String.mk (rustTrimEndMatches last.data ".git".data)) ∧
      ("ws" : String) ≠ "" ∧ ("repo" : String) ≠ "") ∧
    coordinates_from_path "x"
      = .error "repository URL must include workspace and repository" :=
  ⟨coordinates_from_path_characterization.1 "https://host/ws/repo.git"
     ⟨"ws", "repo"⟩ rfl,
   coordinates_from_path_characterization.2 "x" (by decide)⟩

/-- Claim C8 witness: the end-to-end example of the spec — working root
`orgA/repoX`, `orgB/repoY` and worktrees root `orgA/repoX/featA` — scans to
a tree that is complete and sorted at every level. -/
theorem scan_sorted_and_complete_witness :
    (([⟨"orgA", [⟨"repoX", [], [⟨"featA", []⟩]⟩]⟩,
       ⟨"orgB", [⟨"repoY", [], []⟩]⟩] : List SessionWorkspace).map (·.name)).Perm
      (dirNamesAt (.dir true [("work", .dir true
          [("orgA", .dir true [("repoX", .dir true [])]),
           ("orgB", .dir true [("repoY", .dir true [])])]),
        ("wt", .dir true [("orgA", .dir true
          [("repoX", .dir true [("featA", .dir true [])])])])]) ["work"]) ∧
    ([⟨"orgA", [⟨"repoX", [], [⟨"featA", []⟩]⟩]⟩,
      ⟨"orgB", [⟨"repoY", [], []⟩]⟩] : List SessionWorkspace).Pairwise
      (fun a b => lexLe a.name.data b.name.data = true) :=
  ⟨(scan_sorted_and_complete
      (.dir true [("work", .dir true
          [("orgA", .dir true [("repoX", .dir true [])]),
           ("orgB", .dir true [("repoY", .dir true [])])]),
        ("wt", .dir true [("orgA", .dir true
          [("repoX", .dir true [("featA", .dir true [])])])])])
      ["work"] ["wt"]
      [⟨"orgA", [⟨"repoX", [], [⟨"featA", []⟩]⟩]⟩,
       ⟨"orgB", [⟨"repoY", [], []⟩]⟩] rfl).1.1,
   (scan_sorted_and_complete
      (.dir true [("work", .dir true
          [("orgA", .dir true [("repoX", .dir true [])]),
           ("orgB", .dir true [("repoY", .dir true [])])]),
        ("wt", .dir true [("orgA", .dir true
          [("repoX", .dir true [("featA", .dir true [])])])])])
      ["work"] ["wt"]
      [⟨"orgA", [⟨"repoX", [], [⟨"featA", []⟩]⟩]⟩,
       ⟨"orgB", [⟨"repoY", [], []⟩]⟩] rfl).1.2⟩

/-- Claim C9 witness: a missing root scans to the empty list, a missing
worktrees directory yields an empty worktree list, and unreadable
directories — a workspace under the root, or a repository under the
worktrees root — make the scan fail with an error. -/
theorem scan_error_handling_witness :
    workspaces_from_dir (.dir true []) ["nope"] [] = .ok [] ∧
    worktrees_for_repo (.dir true []) [] "a" "b" = .ok [] ∧
    (∃ e, workspaces_from_dir (.dir true [("bad", .dir false [])]) [] []
      = .error e) ∧
    (∃ e, worktrees_for_repo
      (.dir true [("a", .dir true [("b", .dir false [])])]) [] "a" "b"
      = .error e) :=
  ⟨scan_error_handling.1 (.dir true []) ["nope"] [] (by decide),
   scan_error_handling.2.1 (.dir true []) [] "a" "b" (by decide),
   scan_error_handling.2.2.1 (.dir true [("bad", .dir false [])]) [] []
     "bad" [("bad", .dir false [])] [] rfl rfl,
   scan_error_handling.2.2.2
     (.dir true [("a", .dir true [("b", .dir false [])])]) [] "a" "b" [] rfl⟩
